import Mathlib

set_option linter.unusedVariables false

/-!
Verification of the EDL parser (`EDLParser.py`).

Python strings are modelled as `List Char` (a Python `str` is a sequence of
code points).  The string methods the source uses (`strip`, `startswith`,
`split` on a substring, `endswith`, `zfill`, slicing, indexing) are each
modelled by an executable function below; Python `IndexError` on list
indexing is modelled with `Except String`.  `re.match` with pattern `^s\d{2}e\d{2,3}$`
is modelled by a full-string check with `\d` read as an ASCII digit.

The filesystem touched by `generate_folders` is modelled as the list of
directories (paths are component lists, relative to the base directory)
that exist, in creation order; `os.path.join` with an empty last component
denotes the same directory (Python returns the path with a trailing
separator), and `os.makedirs` creates all missing ancestors and raises
`FileExistsError` when the target already exists.
-/

abbrev PyStr := List Char

/-- The characters of a Lean string literal, used to write Python string
literals of the model. -/
def pystr (s : String) : PyStr := s.data

/-- Python `str.strip()`: remove leading and trailing whitespace. -/
def pyStrip (s : PyStr) : PyStr :=
  ((s.dropWhile Char.isWhitespace).reverse.dropWhile Char.isWhitespace).reverse

/-- Truth of `beginsWith pre s` means `s` starts with `pre`. -/
def beginsWith : PyStr → PyStr → Bool
  | [], _ => true
  | _ :: _, [] => false
  | p :: ps, c :: cs => (p == c) && beginsWith ps cs

/-- Python `s.startswith(pre)`. -/
def pyStartsWith (s pre : PyStr) : Bool := beginsWith pre s

/-- Python `s.endswith(suf)`. -/
def pyEndsWith (s suf : PyStr) : Bool := beginsWith suf.reverse s.reverse

/-- Fuel-driven worker for `pySplit`; the fuel makes the definition
structurally recursive so that the kernel can evaluate it. -/
def pySplitF (c0 : Char) (crest : List Char) : Nat → PyStr → List PyStr
  | _, [] => [[]]
  | 0, _ :: _ => [[]]
  | f + 1, c :: rest =>
    if beginsWith (c0 :: crest) (c :: rest) then
      [] :: pySplitF c0 crest f (rest.drop crest.length)
    else
      match pySplitF c0 crest f rest with
      | [] => [[c]]
      | p :: ps => (c :: p) :: ps

/-- Python `s.split(sep)` for a non-empty separator `c0 :: crest`:
split on each non-overlapping occurrence, left to right. -/
def pySplit (c0 : Char) (crest : List Char) (s : PyStr) : List PyStr :=
  pySplitF c0 crest s.length s

/-- Python list indexing `xs[i]` (non-negative index): `IndexError` when out
of range. -/
def pyIndex (xs : List α) (i : Nat) : Except String α :=
  match xs.get? i with
  | some x => .ok x
  | none => .error "IndexError: list index out of range"

/-- Python `s.zfill(w)`: left-pad with zeros to width `w`, keeping a leading
sign character in front of the padding. -/
def zfill (s : PyStr) (w : Nat) : PyStr :=
  match s with
  | [] => List.replicate w '0'
  | c :: rest =>
    if c = '+' || c = '-' then
      c :: (List.replicate (w - (rest.length + 1)) '0' ++ rest)
    else
      List.replicate (w - (rest.length + 1)) '0' ++ (c :: rest)

/-- Model of `re.match` with the pattern `^s\d{2}e\d{2,3}$` of line 164 of
the source, read as a full-string test with ASCII digits. -/
def episodePattern (s : PyStr) : Bool :=
  match s with
  | 's' :: a :: b :: 'e' :: rest =>
    a.isDigit && b.isDigit && rest.all Char.isDigit &&
      (rest.length == 2 || rest.length == 3)
  | _ => false

/-- A row of `clip_data`: `(clip_name, shot, episode, season)`
(line 198 of the source). -/
abbrev ClipRecord := PyStr × PyStr × PyStr × PyStr

/-- Episode normalization, lines 179-182 of the source:
`if len(episode) <= 3: episode = "e" + episode.split('e')[1].zfill(3)`. -/
def normEpisode (episode : PyStr) : Except String PyStr :=
  if episode.length ≤ 3 then
    match pyIndex (pySplit 'e' [] episode) 1 with
    | .error e => .error e
    | .ok e_number => .ok (pystr "e" ++ zfill e_number 3)
  else .ok episode

/-- Shot extraction for a `.mov` line, lines 186-189 of the source:
`shot = parts[4].split("-")[1].split(".")[0].zfill(4)` then
`shot = f"{episode}s{shot}"`. -/
def shotMov (parts : List PyStr) (episode : PyStr) : Except String PyStr :=
  match pyIndex parts 4 with
  | .error e => .error e
  | .ok t =>
    match pyIndex (pySplit '-' [] t) 1 with
    | .error e => .error e
    | .ok t2 =>
      match pyIndex (pySplit '.' [] t2) 0 with
      | .error e => .error e
      | .ok t3 => .ok (episode ++ pystr "s" ++ zfill t3 4)

/-- Shot extraction for a `.wav` line, lines 193-195 of the source:
`shot = parts[1].split("-")[0].zfill(4)` then `shot = f"{episode}s{shot}"`. -/
def shotWav (parts : List PyStr) (episode : PyStr) : Except String PyStr :=
  match pyIndex parts 1 with
  | .error e => .error e
  | .ok t =>
    match pyIndex (pySplit '-' [] t) 0 with
    | .error e => .error e
    | .ok t2 => .ok (episode ++ pystr "s" ++ zfill t2 4)

/-- Lines 176-195 of the source: `shot` starts as the empty string; the `.mov` and
`.wav` conditions on the last element of `parts` are tested one after the
other, the second assignment overwriting the first (they cannot both hold,
since a string cannot end with both suffixes). -/
def shotOf (parts : List PyStr) (episode last : PyStr) : Except String PyStr :=
  match (if pyEndsWith last (pystr ".mov") then shotMov parts episode else .ok []) with
  | .error e => .error e
  | .ok shot1 =>
    if pyEndsWith last (pystr ".wav") then shotWav parts episode else .ok shot1

/-- One loop iteration of `parse_edl_file` (lines 167-198 of the source):
the record the line contributes (`none` when the line is filtered out),
or the uncaught Python exception the iteration raises. -/
def processLine (line : PyStr) : Except String (Option ClipRecord) :=
  if pyStartsWith (pyStrip line) (pystr "REEL") then
    match pyIndex (pySplit 'C' (pystr "LIP") line) 1 with
    | .error e => .error e
    | .ok seg =>
      let clip_name := pyStrip seg
      let parts := pySplit '_' [] clip_name
      match pyIndex parts 0 with
      | .error e => .error e
      | .ok p0 =>
        if episodePattern p0 then
          match normEpisode (p0.drop 3) with
          | .error e => .error e
          | .ok episode =>
            match pyIndex parts (parts.length - 1) with
            | .error e => .error e
            | .ok last =>
              match shotOf parts episode last with
              | .error e => .error e
              | .ok shot => .ok (some (clip_name, shot, episode, p0.take 3))
        else .ok none
  else .ok none

/-- The method `parse_edl_file` (lines 146-201 of the source), applied to the lines of
the opened file.  `clip_data` is the value of `self.clip_data` when the
method is entered: the method only ever appends to it.  The `try` block
catches `IOError` only, so an `IndexError` raised while processing a line
escapes: the remaining lines are not processed and no result is displayed. -/
def parse_edl_file (clip_data : List ClipRecord) (lines : List PyStr) :
    Except String (List ClipRecord) :=
  match lines with
  | [] => .ok clip_data
  | l :: rest =>
    match processLine l with
    | .error e => .error e
    | .ok none => parse_edl_file clip_data rest
    | .ok (some r) => parse_edl_file (clip_data ++ [r]) rest

/-- The record a single line contributes to `clip_data` when it does not
raise: `none` for filtered-out lines. -/
def lineRecord (l : PyStr) : Option ClipRecord :=
  match processLine l with
  | .ok (some r) => some r
  | _ => none

/-- Rejoin split segments with the separator restored (inverse of a split). -/
def joinSep (sep : PyStr) : List PyStr → PyStr
  | [] => []
  | [x] => x
  | x :: y :: rest => x ++ sep ++ joinSep sep (y :: rest)

/-- Modelled from the wording of the spec (§4.1 step 2), for comparison with the
source: "take everything after the first occurrence" of `"CLIP"`, trimmed —
i.e. the concatenation of all split segments after the first one, with the
`"CLIP"` separators restored, then stripped.  Returns `none` when `"CLIP"`
does not occur. -/
def clipNameAfterFirst (line : PyStr) : Option PyStr :=
  match pySplit 'C' (pystr "LIP") line with
  | _ :: r1 :: rs => some (pyStrip (joinSep (pystr "CLIP") (r1 :: rs)))
  | _ => none

instance [DecidableEq ε] [DecidableEq α] : DecidableEq (Except ε α) := fun x y =>
  match x, y with
  | .error a, .error b =>
    if h : a = b then .isTrue (by rw [h])
    else .isFalse (by intro hc; injection hc; contradiction)
  | .ok a, .ok b =>
    if h : a = b then .isTrue (by rw [h])
    else .isFalse (by intro hc; injection hc; contradiction)
  | .error _, .ok _ => .isFalse (by intro hc; exact Except.noConfusion hc)
  | .ok _, .error _ => .isFalse (by intro hc; exact Except.noConfusion hc)

/-- A directory path, as its components relative to the base directory
(`os.getcwd()`, which always exists). -/
abbrev DirPath := List PyStr

/-- The set of directories that exist under the base directory, in creation
order. -/
abbrev FileSystem := List DirPath

/-- Model of `os.path.exists`: the base directory itself (the empty path) always
exists. -/
def pathExists (fs : FileSystem) (p : DirPath) : Bool :=
  decide (p = [] ∨ p ∈ fs)

/-- Model of `os.path.join(p, name)`: joining with an empty final component returns
the same directory (Python appends only a trailing separator). -/
def pathJoin (p : DirPath) (name : PyStr) : DirPath :=
  if name = [] then p else p ++ [name]

/-- Record a single directory as existing (no effect when it already does). -/
def addDir (fs : FileSystem) (p : DirPath) : FileSystem :=
  if p ∈ fs then fs else fs ++ [p]

def addDirs (fs : FileSystem) (ps : List DirPath) : FileSystem :=
  ps.foldl addDir fs

/-- All non-empty ancestor paths of `p`, shortest first, ending with `p`
itself. -/
def dirAncestors (p : DirPath) : List DirPath :=
  (List.range p.length).map (fun i => p.take (i + 1))

/-- Model of `os.makedirs(p)`: create `p` and every missing intermediate directory;
raise `FileExistsError` when `p` already exists. -/
def makedirs (fs : FileSystem) (p : DirPath) : Except String FileSystem :=
  if pathExists fs p then .error "FileExistsError"
  else .ok (addDirs fs (dirAncestors p))

/-- The `if not os.path.exists(d): os.makedirs(d)` pattern of lines 240-251
of the source. -/
def ensureDir (fs : FileSystem) (p : DirPath) : Except String FileSystem :=
  if pathExists fs p then .ok fs else makedirs fs p

/-- One iteration of the `generate_folders` loop (lines 235-251 of the
source): unpack `(file_name, shot_folder, episode_folder, season_folder)`
and ensure `season`, `season/episode`, `season/episode/shot` exist, in that
order. -/
def gfStep (fs : FileSystem) (r : ClipRecord) : Except String FileSystem :=
  match r with
  | (_file_name, shot_folder, episode_folder, season_folder) =>
    let season_directory := pathJoin [] season_folder
    match ensureDir fs season_directory with
    | .error e => .error e
    | .ok fs1 =>
      let episode_directory := pathJoin season_directory episode_folder
      match ensureDir fs1 episode_directory with
      | .error e => .error e
      | .ok fs2 =>
        let shot_directory := pathJoin episode_directory shot_folder
        match ensureDir fs2 shot_directory with
        | .error e => .error e
        | .ok fs3 => .ok fs3

/-- The method `generate_folders` (lines 221-253 of the source), iterating over
`clip_data` in order. -/
def generate_folders (fs : FileSystem) (clip_data : List ClipRecord) :
    Except String FileSystem :=
  match clip_data with
  | [] => .ok fs
  | r :: rest =>
    match gfStep fs r with
    | .error e => .error e
    | .ok fs2 => generate_folders fs2 rest

/-- The pure result of `ensureDir` (it never raises: `makedirs` is only
called on a path that does not exist). -/
def ensurePure (fs : FileSystem) (p : DirPath) : FileSystem :=
  if pathExists fs p then fs else addDirs fs (dirAncestors p)

/-- The pure result of one `generate_folders` iteration. -/
def gfStepPure (fs : FileSystem) (r : ClipRecord) : FileSystem :=
  let season_directory := pathJoin [] r.2.2.2
  let episode_directory := pathJoin season_directory r.2.2.1
  let shot_directory := pathJoin episode_directory r.2.1
  ensurePure (ensurePure (ensurePure fs season_directory) episode_directory)
    shot_directory

/-- The three directories one record asks for. -/
def recDirs (r : ClipRecord) : List DirPath :=
  [pathJoin [] r.2.2.2,
   pathJoin (pathJoin [] r.2.2.2) r.2.2.1,
   pathJoin (pathJoin (pathJoin [] r.2.2.2) r.2.2.1) r.2.1]

lemma pySplitF_fuel (c0 : Char) (crest : List Char) :
    ∀ f1 : Nat, ∀ f2 : Nat, ∀ s : PyStr, s.length ≤ f1 → s.length ≤ f2 →
      pySplitF c0 crest f1 s = pySplitF c0 crest f2 s := by
  intro f1
  induction f1 with
  | zero =>
    intro f2 s h1 h2
    have hs : s = [] := List.eq_nil_of_length_eq_zero (Nat.le_zero.mp h1)
    subst hs
    cases f2 <;> rfl
  | succ f1 ih =>
    intro f2 s h1 h2
    cases s with
    | nil => cases f2 <;> rfl
    | cons c rest =>
      cases f2 with
      | zero => simp at h2
      | succ f2 =>
        simp only [pySplitF]
        have hdrop : (rest.drop crest.length).length ≤ f1 := by
          simp only [List.length_drop]
          simp only [List.length_cons, Nat.succ_le_succ_iff] at h1
          omega
        have hdrop2 : (rest.drop crest.length).length ≤ f2 := by
          simp only [List.length_drop]
          simp only [List.length_cons, Nat.succ_le_succ_iff] at h2
          omega
        have hrest : rest.length ≤ f1 := by
          simp only [List.length_cons, Nat.succ_le_succ_iff] at h1; exact h1
        have hrest2 : rest.length ≤ f2 := by
          simp only [List.length_cons, Nat.succ_le_succ_iff] at h2; exact h2
        rw [ih f2 (rest.drop crest.length) hdrop hdrop2, ih f2 rest hrest hrest2]

lemma pySplit_nil (c0 : Char) (crest : List Char) : pySplit c0 crest [] = [[]] := rfl

lemma pySplit_cons (c0 : Char) (crest : List Char) (c : Char) (rest : PyStr) :
    pySplit c0 crest (c :: rest) =
      if beginsWith (c0 :: crest) (c :: rest) then
        [] :: pySplit c0 crest (rest.drop crest.length)
      else
        match pySplit c0 crest rest with
        | [] => [[c]]
        | p :: ps => (c :: p) :: ps := by
  show pySplitF c0 crest (rest.length + 1) (c :: rest) = _
  simp only [pySplitF, pySplit]
  rw [pySplitF_fuel c0 crest rest.length (rest.drop crest.length).length
    (rest.drop crest.length) (by simp only [List.length_drop]; omega) (le_refl _)]

lemma pySplit_ne_nil (c0 : Char) (crest : List Char) (s : PyStr) :
    pySplit c0 crest s ≠ [] := by
  cases s with
  | nil => simp [pySplit_nil]
  | cons c rest =>
    rw [pySplit_cons]
    split
    · simp
    · split <;> simp

/-- Splitting on a single-character separator that does not occur returns the
whole string as the only piece. -/
lemma pySplit_single_noSep (c0 : Char) (s : PyStr) (h : ∀ c ∈ s, c0 ≠ c) :
    pySplit c0 [] s = [s] := by
  induction s with
  | nil => exact pySplit_nil c0 []
  | cons c rest ih =>
    rw [pySplit_cons]
    have hne : (c0 == c) = false := by
      simp only [beq_eq_false_iff_ne, ne_eq]
      exact h c (by simp)
    have hbw : beginsWith (c0 :: []) (c :: rest) = false := by
      simp [beginsWith, hne]
    rw [hbw]
    simp only [Bool.false_eq_true, if_false]
    rw [ih (fun x hx => h x (by simp [hx]))]

lemma zfill_of_length_ge (s : PyStr) (w : Nat) (hne : s ≠ []) (h : w ≤ s.length) :
    zfill s w = s := by
  cases s with
  | nil => simp at hne
  | cons c rest =>
    simp only [List.length_cons] at h
    have h0 : w - (rest.length + 1) = 0 := by omega
    simp [zfill, h0]

lemma pyIndex_ok_iff (xs : List α) (i : Nat) (x : α) :
    pyIndex xs i = .ok x ↔ xs.get? i = some x := by
  unfold pyIndex
  cases h : xs.get? i <;> simp

lemma pyIndex_zero_cons (x : α) (xs : List α) : pyIndex (x :: xs) 0 = .ok x := rfl

/-- On single-character lists, `beginsWith` is equality of the head. -/
lemma beginsWith_single (c0 c : Char) (rest : PyStr) :
    beginsWith [c0] (c :: rest) = (c0 == c) := by
  simp [beginsWith]

/-- A digit character is not `'e'`, `'+'` or `'-'`. -/
lemma digit_facts (c : Char) (h : c.isDigit = true) :
    c ≠ 'e' ∧ c ≠ '+' ∧ c ≠ '-' := by
  refine ⟨?_, ?_, ?_⟩ <;> intro he <;> subst he <;> simp [Char.isDigit] at h

/-- On a token accepted by the pattern, the episode computed by the source
(lines 175-182) is `"e"` followed by the episode digits zero-padded to
width 3. -/
lemma normEpisode_of_pattern (p0 : PyStr) (hp : episodePattern p0 = true) :
    normEpisode (p0.drop 3) = .ok (pystr "e" ++ zfill (p0.drop 4) 3) := by
  unfold episodePattern at hp
  split at hp
  case h_2 => simp at hp
  case h_1 a b ds =>
    simp only [Bool.and_eq_true, Bool.or_eq_true, beq_iff_eq] at hp
    obtain ⟨⟨⟨ha, hb⟩, hds⟩, hlen⟩ := hp
    have hdrop4 : List.drop 4 ('s' :: a :: b :: 'e' :: ds) = ds := rfl
    show normEpisode (List.drop 3 ('s' :: a :: b :: 'e' :: ds)) = _
    rw [hdrop4]
    show normEpisode ('e' :: ds) = _
    have hnoE : ∀ c ∈ ds, 'e' ≠ c := by
      intro c hc heq
      have := (digit_facts c (by
        have := List.all_eq_true.mp hds c hc
        simpa using this)).1
      exact this heq.symm
    unfold normEpisode
    cases hlen with
    | inl h2 =>
      have hle : ('e' :: ds).length ≤ 3 := by simp [h2]
      rw [if_pos hle, pySplit_cons]
      have : beginsWith ['e'] ('e' :: ds) = true := by simp [beginsWith_single]
      rw [this]
      simp only [if_true, List.length_nil, List.drop_zero]
      rw [pySplit_single_noSep 'e' ds hnoE]
      rfl
    | inr h3 =>
      have hgt : ¬ ('e' :: ds).length ≤ 3 := by simp [h3]
      rw [if_neg hgt]
      have hz : zfill ds 3 = ds :=
        zfill_of_length_ge ds 3 (by intro hnil; rw [hnil] at h3; simp at h3)
          (by simp [h3])
      rw [hz]
      rfl

/-- Everything `processLine` committed to when it produced a record. -/
lemma processLine_inv (line cn sh ep se : PyStr)
    (h : processLine line = .ok (some (cn, sh, ep, se))) :
    pyStartsWith (pyStrip line) (pystr "REEL") = true ∧
    ∃ seg p0 last,
      pyIndex (pySplit 'C' (pystr "LIP") line) 1 = .ok seg ∧
      cn = pyStrip seg ∧
      pyIndex (pySplit '_' [] cn) 0 = .ok p0 ∧
      episodePattern p0 = true ∧
      se = p0.take 3 ∧
      normEpisode (p0.drop 3) = .ok ep ∧
      pyIndex (pySplit '_' [] cn) ((pySplit '_' [] cn).length - 1) = .ok last ∧
      shotOf (pySplit '_' [] cn) ep last = .ok sh := by
  unfold processLine at h
  by_cases h1 : pyStartsWith (pyStrip line) (pystr "REEL") = true
  case neg =>
    rw [if_neg (by simpa using h1)] at h
    exact absurd h (by simp)
  case pos =>
    rw [if_pos (by simpa using h1)] at h
    refine ⟨h1, ?_⟩
    cases hseg : pyIndex (pySplit 'C' (pystr "LIP") line) 1 with
    | error e => rw [hseg] at h; exact absurd h (by simp)
    | ok seg =>
      rw [hseg] at h
      simp only at h
      cases hp0 : pyIndex (pySplit '_' [] (pyStrip seg)) 0 with
      | error e => rw [hp0] at h; exact absurd h (by simp)
      | ok p0 =>
        rw [hp0] at h
        simp only at h
        by_cases hpat : episodePattern p0 = true
        case neg =>
          rw [if_neg (by simpa using hpat)] at h
          exact absurd h (by simp)
        case pos =>
          rw [if_pos (by simpa using hpat)] at h
          cases hep : normEpisode (p0.drop 3) with
          | error e => rw [hep] at h; exact absurd h (by simp)
          | ok episode =>
            rw [hep] at h
            simp only at h
            cases hlast : pyIndex (pySplit '_' [] (pyStrip seg))
                ((pySplit '_' [] (pyStrip seg)).length - 1) with
            | error e => rw [hlast] at h; exact absurd h (by simp)
            | ok last =>
              rw [hlast] at h
              simp only at h
              cases hsh : shotOf (pySplit '_' [] (pyStrip seg)) episode last with
              | error e => rw [hsh] at h; exact absurd h (by simp)
              | ok shot =>
                rw [hsh] at h
                simp only [Except.ok.injEq, Option.some.injEq,
                  Prod.mk.injEq] at h
                obtain ⟨hcn, hshot, hepi, hsea⟩ := h
                subst hcn; subst hshot; subst hepi; subst hsea
                exact ⟨seg, p0, last, rfl, rfl, hp0, hpat, rfl, hep, hlast, hsh⟩

lemma beginsWith_true_iff (pre s : PyStr) :
    beginsWith pre s = true ↔ ∃ t, s = pre ++ t := by
  induction pre generalizing s with
  | nil => simp [beginsWith]
  | cons p ps ih =>
    cases s with
    | nil => simp [beginsWith]
    | cons c cs =>
      simp only [beginsWith, Bool.and_eq_true, beq_iff_eq, ih, List.cons_append,
        List.cons.injEq]
      constructor
      · rintro ⟨hpc, t, ht⟩
        exact ⟨t, hpc.symm, ht⟩
      · rintro ⟨t, hcp, ht⟩
        exact ⟨hcp.symm, t, ht⟩

/-- A string that ends with `".wav"` does not end with `".mov"`. -/
lemma wav_not_mov (s : PyStr) (h : pyEndsWith s (pystr ".wav") = true) :
    pyEndsWith s (pystr ".mov") = false := by
  unfold pyEndsWith at h ⊢
  have hw : (pystr ".wav").reverse = 'v' :: 'a' :: 'w' :: '.' :: [] := rfl
  have hm : (pystr ".mov").reverse = 'v' :: 'o' :: 'm' :: '.' :: [] := rfl
  rw [hw] at h
  rw [hm]
  obtain ⟨t, ht⟩ := (beginsWith_true_iff _ _).mp h
  rw [ht]
  have hoa : (('o' : Char) == 'a') = false := by decide
  simp [beginsWith, hoa]

lemma headD_of_get?_zero (xs : List α) (x d : α) (h : xs.get? 0 = some x) :
    xs.headD d = x := by
  cases xs with
  | nil => simp at h
  | cons a t => simp at h; simp [h]

lemma getLastD_of_pyIndex (xs : List α) (x d : α)
    (h : pyIndex xs (xs.length - 1) = .ok x) : xs.getLastD d = x := by
  rw [pyIndex_ok_iff] at h
  induction xs with
  | nil => simp at h
  | cons a t ih =>
    cases t with
    | nil => simp at h; simp [h]
    | cons b t2 =>
      simp only [List.length_cons, Nat.add_sub_cancel] at h ih ⊢
      have : (a :: b :: t2).get? (t2.length + 1) = (b :: t2).get? t2.length := rfl
      rw [this] at h
      rw [List.getLastD_cons]
      exact ih h

/-- When the last token ends in `".wav"`, the shot the source computes comes
from `parts[1]` split on `"-"` at index 0, zero-padded to width 4. -/
lemma shotOf_wav (parts : List PyStr) (episode last sh : PyStr)
    (hwav : pyEndsWith last (pystr ".wav") = true)
    (h : shotOf parts episode last = .ok sh) :
    ∃ p1, pyIndex parts 1 = .ok p1 ∧
      sh = episode ++ pystr "s" ++ zfill ((pySplit '-' [] p1).headD []) 4 := by
  unfold shotOf at h
  rw [wav_not_mov last hwav] at h
  simp only [Bool.false_eq_true, if_false] at h
  rw [hwav] at h
  simp only [if_true] at h
  unfold shotWav at h
  cases hp1 : pyIndex parts 1 with
  | error e => rw [hp1] at h; exact absurd h (by simp)
  | ok t =>
    rw [hp1] at h
    simp only at h
    cases ht2 : pyIndex (pySplit '-' [] t) 0 with
    | error e => rw [ht2] at h; exact absurd h (by simp)
    | ok t2 =>
      rw [ht2] at h
      simp only [Except.ok.injEq] at h
      refine ⟨t, rfl, ?_⟩
      rw [pyIndex_ok_iff] at ht2
      rw [headD_of_get?_zero _ _ _ ht2]
      exact h.symm

/-- When the last token ends in neither `".mov"` nor `".wav"`, the shot the
source computes is the initial empty string. -/
lemma shotOf_neither (parts : List PyStr) (episode last sh : PyStr)
    (hmov : pyEndsWith last (pystr ".mov") = false)
    (hwav : pyEndsWith last (pystr ".wav") = false)
    (h : shotOf parts episode last = .ok sh) : sh = [] := by
  unfold shotOf at h
  rw [hmov, hwav] at h
  simp only [Bool.false_eq_true, if_false] at h
  simp only [Except.ok.injEq] at h
  exact h.symm

/-- A successful `parse_edl_file` run appends exactly the records of the
processed lines, in line order, to the list it started from. -/
lemma parse_eq_filterMap :
    ∀ (lines : List PyStr) (acc rs : List ClipRecord),
      parse_edl_file acc lines = .ok rs → rs = acc ++ lines.filterMap lineRecord := by
  intro lines
  induction lines with
  | nil =>
    intro acc rs h
    unfold parse_edl_file at h
    simp only [Except.ok.injEq] at h
    simp [h.symm]
  | cons l rest ih =>
    intro acc rs h
    unfold parse_edl_file at h
    cases hpl : processLine l with
    | error e => rw [hpl] at h; exact absurd h (by simp)
    | ok o =>
      cases o with
      | none =>
        rw [hpl] at h
        simp only at h
        have := ih acc rs h
        have hlr : lineRecord l = none := by unfold lineRecord; rw [hpl]
        simp [List.filterMap_cons, hlr, this]
      | some r =>
        rw [hpl] at h
        simp only at h
        have := ih (acc ++ [r]) rs h
        have hlr : lineRecord l = some r := by unfold lineRecord; rw [hpl]
        simp [List.filterMap_cons, hlr, this]

lemma pathExists_iff (fs : FileSystem) (p : DirPath) :
    pathExists fs p = true ↔ p = [] ∨ p ∈ fs := by
  simp [pathExists]

lemma mem_addDir_of_mem (fs : FileSystem) (p q : DirPath) (h : q ∈ fs) :
    q ∈ addDir fs p := by
  unfold addDir; split
  · exact h
  · simp [h]

lemma self_mem_addDir (fs : FileSystem) (p : DirPath) : p ∈ addDir fs p := by
  unfold addDir; split
  · assumption
  · simp

lemma addDir_append (fs : FileSystem) (p : DirPath) :
    ∃ t, addDir fs p = fs ++ t := by
  unfold addDir; split
  · exact ⟨[], by simp⟩
  · exact ⟨[p], rfl⟩

lemma mem_addDirs_of_mem (fs : FileSystem) (ps : List DirPath) (q : DirPath)
    (h : q ∈ fs) : q ∈ addDirs fs ps := by
  induction ps generalizing fs with
  | nil => exact h
  | cons p rest ih => exact ih (addDir fs p) (mem_addDir_of_mem fs p q h)

lemma mem_addDirs_of_mem_list (fs : FileSystem) (ps : List DirPath) (q : DirPath)
    (h : q ∈ ps) : q ∈ addDirs fs ps := by
  induction ps generalizing fs with
  | nil => simp at h
  | cons p rest ih =>
    rcases List.mem_cons.mp h with h1 | h2
    · subst h1
      exact mem_addDirs_of_mem (addDir fs q) rest q (self_mem_addDir fs q)
    · exact ih (addDir fs p) h2

lemma addDirs_append (fs : FileSystem) (ps : List DirPath) :
    ∃ t, addDirs fs ps = fs ++ t := by
  induction ps generalizing fs with
  | nil => exact ⟨[], by simp [addDirs]⟩
  | cons p rest ih =>
    obtain ⟨t1, ht1⟩ := addDir_append fs p
    obtain ⟨t2, ht2⟩ := ih (addDir fs p)
    exact ⟨t1 ++ t2, by
      show addDirs (addDir fs p) rest = fs ++ (t1 ++ t2)
      rw [ht2, ht1, List.append_assoc]⟩

lemma mem_addDirs_sub (fs : FileSystem) (ps : List DirPath) (q : DirPath)
    (h : q ∈ addDirs fs ps) : q ∈ fs ∨ q ∈ ps := by
  induction ps generalizing fs with
  | nil => exact Or.inl h
  | cons p rest ih =>
    rcases ih (addDir fs p) h with h1 | h2
    · unfold addDir at h1
      split at h1
      · exact Or.inl h1
      · rcases List.mem_append.mp h1 with ha | hb
        · exact Or.inl ha
        · simp at hb; simp [hb]
    · simp [h2]

lemma self_mem_dirAncestors (p : DirPath) (h : p ≠ []) : p ∈ dirAncestors p := by
  unfold dirAncestors
  have hl : 0 < p.length := List.length_pos.mpr h
  refine List.mem_map.mpr ⟨p.length - 1, List.mem_range.mpr (by omega), ?_⟩
  have he : p.length - 1 + 1 = p.length := by omega
  rw [he, List.take_length]

lemma ensureDir_eq (fs : FileSystem) (p : DirPath) :
    ensureDir fs p = .ok (ensurePure fs p) := by
  unfold ensureDir makedirs ensurePure
  by_cases h : pathExists fs p = true
  · rw [if_pos h, if_pos h]
  · have h2 : pathExists fs p = false := by
      cases hb : pathExists fs p
      · rfl
      · exact absurd hb h
    rw [if_neg (by simp [h2]), if_neg (by simp [h2]), if_neg (by simp [h2])]

lemma ensurePure_append (fs : FileSystem) (p : DirPath) :
    ∃ t, ensurePure fs p = fs ++ t := by
  unfold ensurePure; split
  · exact ⟨[], by simp⟩
  · exact addDirs_append fs (dirAncestors p)

lemma pathExists_ensurePure_mono (fs : FileSystem) (p q : DirPath)
    (h : pathExists fs q = true) : pathExists (ensurePure fs p) q = true := by
  rw [pathExists_iff] at h ⊢
  rcases h with h | h
  · exact Or.inl h
  · obtain ⟨t, ht⟩ := ensurePure_append fs p
    rw [ht]
    exact Or.inr (List.mem_append.mpr (Or.inl h))

lemma pathExists_ensurePure_self (fs : FileSystem) (p : DirPath) :
    pathExists (ensurePure fs p) p = true := by
  unfold ensurePure
  by_cases h : pathExists fs p = true
  · rw [if_pos h]; exact h
  · rw [if_neg h]
    rw [pathExists_iff]
    by_cases hp : p = []
    · exact Or.inl hp
    · exact Or.inr (mem_addDirs_of_mem_list fs (dirAncestors p) p
        (self_mem_dirAncestors p hp))

lemma ensurePure_of_exists (fs : FileSystem) (p : DirPath)
    (h : pathExists fs p = true) : ensurePure fs p = fs := by
  unfold ensurePure; rw [if_pos h]

lemma mem_ensurePure_sub (fs : FileSystem) (p q : DirPath)
    (h : q ∈ ensurePure fs p) : q ∈ fs ∨ q ∈ dirAncestors p := by
  unfold ensurePure at h
  split at h
  · exact Or.inl h
  · exact mem_addDirs_sub fs (dirAncestors p) q h

lemma gfStep_eq (fs : FileSystem) (r : ClipRecord) :
    gfStep fs r = .ok (gfStepPure fs r) := by
  obtain ⟨c, sh, ep, se⟩ := r
  unfold gfStep gfStepPure
  simp only [ensureDir_eq]

lemma generate_folders_eq (clip_data : List ClipRecord) :
    ∀ fs : FileSystem,
      generate_folders fs clip_data = .ok (clip_data.foldl gfStepPure fs) := by
  induction clip_data with
  | nil => intro fs; rfl
  | cons r rest ih =>
    intro fs
    unfold generate_folders
    rw [gfStep_eq]
    simp only [List.foldl_cons]
    exact ih (gfStepPure fs r)

lemma pathExists_gfStepPure_mono (fs : FileSystem) (r : ClipRecord) (q : DirPath)
    (h : pathExists fs q = true) : pathExists (gfStepPure fs r) q = true := by
  unfold gfStepPure
  exact pathExists_ensurePure_mono _ _ _
    (pathExists_ensurePure_mono _ _ _ (pathExists_ensurePure_mono _ _ _ h))

lemma pathExists_foldl_mono (rs : List ClipRecord) :
    ∀ (fs : FileSystem) (q : DirPath), pathExists fs q = true →
      pathExists (rs.foldl gfStepPure fs) q = true := by
  induction rs with
  | nil => intro fs q h; exact h
  | cons r rest ih =>
    intro fs q h
    exact ih (gfStepPure fs r) q (pathExists_gfStepPure_mono fs r q h)

lemma gfStepPure_creates (fs : FileSystem) (r : ClipRecord) :
    ∀ p ∈ recDirs r, pathExists (gfStepPure fs r) p = true := by
  intro p hp
  unfold recDirs at hp
  unfold gfStepPure
  simp only [List.mem_cons, List.mem_singleton] at hp
  rcases hp with h1 | h2 | h3
  · subst h1
    exact pathExists_ensurePure_mono _ _ _ (pathExists_ensurePure_mono _ _ _
      (pathExists_ensurePure_self fs _))
  · subst h2
    exact pathExists_ensurePure_mono _ _ _ (pathExists_ensurePure_self _ _)
  · simp at h3
    subst h3
    exact pathExists_ensurePure_self _ _

lemma gfStepPure_id_of_exists (fs : FileSystem) (r : ClipRecord)
    (h : ∀ p ∈ recDirs r, pathExists fs p = true) : gfStepPure fs r = fs := by
  show ensurePure (ensurePure (ensurePure fs (pathJoin [] r.2.2.2))
    (pathJoin (pathJoin [] r.2.2.2) r.2.2.1))
    (pathJoin (pathJoin (pathJoin [] r.2.2.2) r.2.2.1) r.2.1) = fs
  have h1 : pathExists fs (pathJoin [] r.2.2.2) = true := h _ (by simp [recDirs])
  have h2 : pathExists fs (pathJoin (pathJoin [] r.2.2.2) r.2.2.1) = true :=
    h _ (by simp [recDirs])
  have h3 : pathExists fs
      (pathJoin (pathJoin (pathJoin [] r.2.2.2) r.2.2.1) r.2.1) = true :=
    h _ (by simp [recDirs])
  rw [ensurePure_of_exists _ _ h1, ensurePure_of_exists _ _ h2,
    ensurePure_of_exists _ _ h3]

lemma foldl_creates (rs : List ClipRecord) :
    ∀ fs : FileSystem, ∀ r ∈ rs, ∀ p ∈ recDirs r,
      pathExists (rs.foldl gfStepPure fs) p = true := by
  induction rs with
  | nil => intro fs r h; simp at h
  | cons r0 rest ih =>
    intro fs r hr p hp
    simp only [List.foldl_cons]
    rcases List.mem_cons.mp hr with h1 | h2
    · subst h1
      exact pathExists_foldl_mono rest (gfStepPure fs r) p
        (gfStepPure_creates fs r p hp)
    · exact ih (gfStepPure fs r0) r h2 p hp

lemma foldl_id_of_exists (rs : List ClipRecord) :
    ∀ fs : FileSystem, (∀ r ∈ rs, ∀ p ∈ recDirs r, pathExists fs p = true) →
      rs.foldl gfStepPure fs = fs := by
  induction rs with
  | nil => intro fs h; rfl
  | cons r rest ih =>
    intro fs h
    simp only [List.foldl_cons]
    have hstep : gfStepPure fs r = fs :=
      gfStepPure_id_of_exists fs r (h r (by simp))
    rw [hstep]
    exact ih fs (fun r2 h2 => h r2 (by simp [h2]))

lemma gfStepPure_append (fs : FileSystem) (r : ClipRecord) :
    ∃ t, gfStepPure fs r = fs ++ t := by
  show ∃ t, ensurePure (ensurePure (ensurePure fs (pathJoin [] r.2.2.2))
    (pathJoin (pathJoin [] r.2.2.2) r.2.2.1))
    (pathJoin (pathJoin (pathJoin [] r.2.2.2) r.2.2.1) r.2.1) = fs ++ t
  obtain ⟨t1, h1⟩ := ensurePure_append fs (pathJoin [] r.2.2.2)
  obtain ⟨t2, h2⟩ := ensurePure_append (ensurePure fs (pathJoin [] r.2.2.2))
    (pathJoin (pathJoin [] r.2.2.2) r.2.2.1)
  obtain ⟨t3, h3⟩ := ensurePure_append
    (ensurePure (ensurePure fs (pathJoin [] r.2.2.2))
      (pathJoin (pathJoin [] r.2.2.2) r.2.2.1))
    (pathJoin (pathJoin (pathJoin [] r.2.2.2) r.2.2.1) r.2.1)
  refine ⟨t1 ++ t2 ++ t3, ?_⟩
  rw [h3, h2, h1]
  simp [List.append_assoc]

lemma foldl_append (rs : List ClipRecord) :
    ∀ fs : FileSystem, ∃ t, rs.foldl gfStepPure fs = fs ++ t := by
  induction rs with
  | nil => intro fs; exact ⟨[], by simp⟩
  | cons r rest ih =>
    intro fs
    obtain ⟨t1, h1⟩ := gfStepPure_append fs r
    obtain ⟨t2, h2⟩ := ih (gfStepPure fs r)
    refine ⟨t1 ++ t2, ?_⟩
    simp only [List.foldl_cons]
    rw [h2, h1, List.append_assoc]

lemma pyIndex_zero_of_ne_nil (xs : List α) (d : α) (h : xs ≠ []) :
    pyIndex xs 0 = .ok (xs.headD d) := by
  cases xs with
  | nil => exact absurd rfl h
  | cons a t => rfl

/-- The well-formed `.mov` line of the end-to-end example of the spec. -/
def goodMovLine : PyStr := pystr "REEL 001 CLIP s01e005_show_ep_desc_unused-0007.mov"

/-- The record the spec expects for `goodMovLine`. -/
def goodMovRecord : ClipRecord :=
  (pystr "s01e005_show_ep_desc_unused-0007.mov", pystr "e005s0007",
   pystr "e005", pystr "s01")

example : processLine goodMovLine = .ok (some goodMovRecord) := by decide

/-- Claim C1 (code bug): a `REEL` line lacking a `CLIP` marker, and a `.mov`
line with fewer than 5 underscore-delimited parts, each raise an uncaught
`IndexError` (`parse_edl_file` catches `IOError` only), so the parse aborts
and the later well-formed line — which on its own contributes a record —
yields nothing, instead of the malformed line being skipped. -/
theorem thm_C1 :
    parse_edl_file [] [pystr "REEL 001 AX V C00 no-marker", goodMovLine] =
      .error "IndexError: list index out of range" ∧
    parse_edl_file [] [pystr "REEL 001 CLIP s01e05_a.mov", goodMovLine] =
      .error "IndexError: list index out of range" ∧
    lineRecord goodMovLine = some goodMovRecord := by
  refine ⟨by decide, by decide, by decide⟩

/-- Claim C2 (code bug): `self.clip_data` is created empty once, in
`__init__`, and `parse_edl_file` only appends; parsing a second file starts
from the records left by the first, so the resulting list is not a function
of the lines of the second file alone. -/
theorem thm_C2 :
    parse_edl_file [] [goodMovLine] = .ok [goodMovRecord] ∧
    parse_edl_file [goodMovRecord] [goodMovLine] =
      .ok [goodMovRecord, goodMovRecord] ∧
    [goodMovRecord, goodMovRecord] ≠ [goodMovRecord] := by
  refine ⟨by decide, by decide, by decide⟩

/-- Claim C3, counterexample: on a line where `"CLIP"` occurs twice, the
expression `line.split("CLIP")[1]` of the source keeps only the text between the first and
second occurrences, not everything after the first occurrence. -/
theorem thm_C3_cex :
    processLine (pystr "REEL CLIP s01e05_xCLIPy") =
      .ok (some (pystr "s01e05_x", [], pystr "e005", pystr "s01")) ∧
    clipNameAfterFirst (pystr "REEL CLIP s01e05_xCLIPy") =
      some (pystr "s01e05_xCLIPy") ∧
    pystr "s01e05_x" ≠ pystr "s01e05_xCLIPy" := by
  refine ⟨by decide, by decide, by decide⟩

/-- Claim C3, amended: the `clip_name` field of a produced record is the
second element of the `"CLIP"` split (the text strictly between the first
and second occurrences of `"CLIP"`; everything after the first occurrence
when it occurs exactly once), trimmed. -/
theorem thm_C3 (line cn sh ep se : PyStr)
    (h : processLine line = .ok (some (cn, sh, ep, se))) :
    cn = pyStrip ((pySplit 'C' (pystr "LIP") line).getD 1 []) := by
  obtain ⟨-, seg, p0, last, hseg, hcn, -⟩ := processLine_inv line cn sh ep se h
  rw [pyIndex_ok_iff] at hseg
  rw [hcn, List.getD_eq_getElem?_getD, ← List.get?_eq_getElem?, hseg]
  rfl

/-- Witness for the amended claim C3 at the end-to-end example of the spec. -/
theorem thm_C3_witness :
    pystr "s01e005_show_ep_desc_unused-0007.mov" =
      pyStrip ((pySplit 'C' (pystr "LIP") goodMovLine).getD 1 []) :=
  thm_C3 goodMovLine (pystr "s01e005_show_ep_desc_unused-0007.mov")
    (pystr "e005s0007") (pystr "e005") (pystr "s01") (by decide)

/-- Claim C4: on the end-to-end example of the spec line, extraction produces
exactly the expected record, and the `.mov` shot digits do come from
`parts[4]` split on `"-"` at index 1, then on `"."` at index 0, zero-padded
to width 4, with `shot = episode ++ "s" ++ padded`. -/
theorem thm_C4 :
    parse_edl_file [] [goodMovLine] = .ok [goodMovRecord] ∧
    pyIndex (pySplit '_' [] (pystr "s01e005_show_ep_desc_unused-0007.mov")) 4 =
      .ok (pystr "unused-0007.mov") ∧
    pyIndex (pySplit '-' [] (pystr "unused-0007.mov")) 1 = .ok (pystr "0007.mov") ∧
    pyIndex (pySplit '.' [] (pystr "0007.mov")) 0 = .ok (pystr "0007") ∧
    zfill (pystr "0007") 4 = pystr "0007" ∧
    pystr "e005" ++ pystr "s" ++ pystr "0007" = pystr "e005s0007" := by
  refine ⟨by decide, by decide, by decide, by decide, by decide, by decide⟩

/-- Claim C5: the episode field of every produced record is `"e"` followed
by the episode digits of the first underscore token of the clip name, left
zero-padded to width 3 (so `e23` becomes `e023` and a 3-digit episode such
as `e005` or `e123` is left unchanged — the normalization is idempotent on
3-digit input). -/
theorem thm_C5 (line cn sh ep se : PyStr)
    (h : processLine line = .ok (some (cn, sh, ep, se))) :
    ep = pystr "e" ++ zfill (((pySplit '_' [] cn).headD []).drop 4) 3 := by
  obtain ⟨-, seg, p0, last, hseg, hcn, hp0, hpat, hse, hep, -, -⟩ :=
    processLine_inv line cn sh ep se h
  rw [normEpisode_of_pattern p0 hpat] at hep
  simp only [Except.ok.injEq] at hep
  rw [pyIndex_ok_iff] at hp0
  rw [headD_of_get?_zero _ _ _ hp0]
  exact hep.symm

/-- Witness for C5: a 3-digit episode (`e005`, unchanged) and a 2-digit
episode (`e12`, padded to `e012`). -/
theorem thm_C5_witness :
    (pystr "e005" = pystr "e" ++
      zfill (((pySplit '_' []
        (pystr "s01e005_show_ep_desc_unused-0007.mov")).headD []).drop 4) 3) ∧
    (pystr "e012" = pystr "e" ++
      zfill (((pySplit '_' [] (pystr "s02e12_0033-x.wav")).headD []).drop 4) 3) :=
  ⟨thm_C5 goodMovLine (pystr "s01e005_show_ep_desc_unused-0007.mov")
      (pystr "e005s0007") (pystr "e005") (pystr "s01") (by decide),
   thm_C5 (pystr "REEL 001 CLIP s02e12_0033-x.wav") (pystr "s02e12_0033-x.wav")
      (pystr "e012s0033") (pystr "e012") (pystr "s02") (by decide)⟩

/-- Claim C6: for every produced record whose last underscore token of the clip
name ends in `".wav"`, the shot is `episode ++ "s" ++` the zero-padded
(width 4) first `"-"`-piece of `parts[1]`; in particular the `.wav` example of the spec
 yields season `s02`, episode `e012` and shot `e012s0033`. -/
theorem thm_C6 :
    (∀ line cn sh ep se : PyStr, processLine line = .ok (some (cn, sh, ep, se)) →
      pyEndsWith ((pySplit '_' [] cn).getLastD []) (pystr ".wav") = true →
      ∃ p1, pyIndex (pySplit '_' [] cn) 1 = .ok p1 ∧
        sh = ep ++ pystr "s" ++ zfill ((pySplit '-' [] p1).headD []) 4) ∧
    processLine (pystr "REEL 001 CLIP s02e12_0033-x.wav") =
      .ok (some (pystr "s02e12_0033-x.wav", pystr "e012s0033",
        pystr "e012", pystr "s02")) := by
  constructor
  · intro line cn sh ep se h hwav
    obtain ⟨-, seg, p0, last, hseg, hcn, hp0, hpat, hse, hep, hlast, hsh⟩ :=
      processLine_inv line cn sh ep se h
    have hlast2 : (pySplit '_' [] cn).getLastD [] = last :=
      getLastD_of_pyIndex _ _ _ hlast
    rw [hlast2] at hwav
    exact shotOf_wav _ _ _ _ hwav hsh
  · decide

/-- Witness for C6 at the `.wav` example of the spec. -/
theorem thm_C6_witness :
    ∃ p1, pyIndex (pySplit '_' [] (pystr "s02e12_0033-x.wav")) 1 = .ok p1 ∧
      pystr "e012s0033" =
        pystr "e012" ++ pystr "s" ++ zfill ((pySplit '-' [] p1).headD []) 4 :=
  thm_C6.1 (pystr "REEL 001 CLIP s02e12_0033-x.wav") (pystr "s02e12_0033-x.wav")
    (pystr "e012s0033") (pystr "e012") (pystr "s02") (by decide) (by decide)

/-- Claim C7: a successful parse appends, in file-line order and without
deduplication, exactly the records of the qualifying lines; a line that does
not start (after trimming) with `"REEL"` contributes no record, a `REEL`
line where the first underscore token of the clip name fails the episode pattern
contributes no record, and every produced record comes from a line passing
both tests; duplicate qualifying lines yield duplicate records. -/
theorem thm_C7 :
    (∀ (lines : List PyStr) (acc rs : List ClipRecord),
      parse_edl_file acc lines = .ok rs →
        rs = acc ++ lines.filterMap lineRecord) ∧
    (∀ l : PyStr, pyStartsWith (pyStrip l) (pystr "REEL") = false →
      processLine l = .ok none) ∧
    (∀ l seg p0 : PyStr, pyIndex (pySplit 'C' (pystr "LIP") l) 1 = .ok seg →
      pyIndex (pySplit '_' [] (pyStrip seg)) 0 = .ok p0 →
      episodePattern p0 = false → processLine l = .ok none) ∧
    (∀ (l : PyStr) (r : ClipRecord), processLine l = .ok (some r) →
      pyStartsWith (pyStrip l) (pystr "REEL") = true ∧
      ∃ seg p0 : PyStr, pyIndex (pySplit 'C' (pystr "LIP") l) 1 = .ok seg ∧
        pyIndex (pySplit '_' [] (pyStrip seg)) 0 = .ok p0 ∧
        episodePattern p0 = true) ∧
    parse_edl_file [] [goodMovLine, goodMovLine] =
      .ok [goodMovRecord, goodMovRecord] := by
  refine ⟨parse_eq_filterMap, ?_, ?_, ?_, by decide⟩
  · intro l h
    unfold processLine
    rw [if_neg (by simp [h])]
  · intro l seg p0 hseg hp0 hpat
    by_cases hreel : pyStartsWith (pyStrip l) (pystr "REEL") = true
    · simp only [processLine, if_pos hreel, hseg, hp0]
      have hne : ¬ episodePattern p0 = true := by
        simp only [hpat]
        simp
      rw [if_neg hne]
    · simp only [processLine, if_neg hreel]
  · intro l r h
    obtain ⟨cn, sh, ep, se⟩ := r
    obtain ⟨hreel, seg, p0, last, hseg, hcn, hp0, hpat, -⟩ :=
      processLine_inv l cn sh ep se h
    rw [hcn] at hp0
    exact ⟨hreel, seg, p0, hseg, hp0, hpat⟩

/-- Witness for C7: the filtered-append equation at a one-line file, a
non-`REEL` line, a `REEL` line failing the pattern, and the only-if
direction at the end-to-end example. -/
theorem thm_C7_witness :
    ([goodMovRecord] = [] ++ [goodMovLine].filterMap lineRecord) ∧
    processLine (pystr "TITLE my show") = .ok none ∧
    processLine (pystr "REEL 001 CLIP foo_bar") = .ok none ∧
    (pyStartsWith (pyStrip goodMovLine) (pystr "REEL") = true ∧
      ∃ seg p0 : PyStr,
        pyIndex (pySplit 'C' (pystr "LIP") goodMovLine) 1 = .ok seg ∧
        pyIndex (pySplit '_' [] (pyStrip seg)) 0 = .ok p0 ∧
        episodePattern p0 = true) :=
  ⟨thm_C7.1 [goodMovLine] [] [goodMovRecord] (by decide),
   thm_C7.2.1 (pystr "TITLE my show") (by decide),
   thm_C7.2.2.1 (pystr "REEL 001 CLIP foo_bar") (pystr " foo_bar") (pystr "foo")
     (by decide) (by decide) (by decide),
   thm_C7.2.2.2.1 goodMovLine goodMovRecord (by decide)⟩

/-- Claim C8: when the last underscore token of the clip name ends in neither
`".mov"` nor `".wav"`, the shot field of the produced record is the empty
string. -/
theorem thm_C8 (line cn sh ep se : PyStr)
    (h : processLine line = .ok (some (cn, sh, ep, se)))
    (hmov : pyEndsWith ((pySplit '_' [] cn).getLastD []) (pystr ".mov") = false)
    (hwav : pyEndsWith ((pySplit '_' [] cn).getLastD []) (pystr ".wav") = false) :
    sh = [] := by
  obtain ⟨-, seg, p0, last, hseg, hcn, hp0, hpat, hse, hep, hlast, hsh⟩ :=
    processLine_inv line cn sh ep se h
  have hlast2 : (pySplit '_' [] cn).getLastD [] = last :=
    getLastD_of_pyIndex _ _ _ hlast
  rw [hlast2] at hmov hwav
  exact shotOf_neither _ _ _ _ hmov hwav hsh

/-- Witness for C8 at a qualifying line with no media extension. -/
theorem thm_C8_witness : pystr "" = ([] : PyStr) :=
  thm_C8 (pystr "REEL 5 CLIP s03e07_foo") (pystr "s03e07_foo") (pystr "")
    (pystr "e007") (pystr "s03") (by decide) (by decide) (by decide)

/-- Members of the ancestors of a one-level `pathJoin` path. -/
lemma mem_dirAncestors_join1 (se : PyStr) (p : DirPath)
    (h : p ∈ dirAncestors (pathJoin [] se)) : p = pathJoin [] se := by
  by_cases hse : se = []
  · subst hse
    simp [pathJoin, dirAncestors] at h
  · have hj : pathJoin ([] : DirPath) se = [se] := by simp [pathJoin, hse]
    rw [hj] at h ⊢
    have han : dirAncestors [se] = [[se]] := rfl
    rw [han] at h
    simpa using h

/-- Members of the ancestors of a two-level `pathJoin` path. -/
lemma mem_dirAncestors_join2 (se ep : PyStr) (p : DirPath)
    (h : p ∈ dirAncestors (pathJoin (pathJoin [] se) ep)) :
    p = pathJoin [] se ∨ p = pathJoin (pathJoin [] se) ep := by
  by_cases hep : ep = []
  · subst hep
    have hj : pathJoin (pathJoin [] se) [] = pathJoin [] se := by
      unfold pathJoin; rw [if_pos rfl]
    rw [hj] at h ⊢
    exact Or.inl (mem_dirAncestors_join1 se p h)
  · by_cases hse : se = []
    · subst hse
      have h1 : pathJoin ([] : DirPath) [] = [] := by unfold pathJoin; rw [if_pos rfl]
      have h2 : pathJoin ([] : DirPath) ep = [ep] := by simp [pathJoin, hep]
      rw [h1, h2] at h ⊢
      have han : dirAncestors [ep] = [[ep]] := rfl
      rw [han] at h
      simp at h
      exact Or.inr (by simp [h])
    · have h1 : pathJoin ([] : DirPath) se = [se] := by simp [pathJoin, hse]
      have h2 : pathJoin [se] ep = [se, ep] := by simp [pathJoin, hep]
      rw [h1, h2] at h ⊢
      have han : dirAncestors [se, ep] = [[se], [se, ep]] := rfl
      rw [han] at h
      simp only [List.mem_cons, List.mem_singleton, List.not_mem_nil, or_false] at h
      rcases h with h | h
      · exact Or.inl h
      · exact Or.inr h

/-- Claim C9: the folder materializer only adds directories.  First, it is
idempotent: a second run over the same records from the state the first run
produced raises no error and changes nothing.  Second, every run leaves the
starting directories untouched, only appending new ones.  Third, for a
record whose season and episode directories already exist and whose
(non-empty) shot directory does not, the run creates exactly the one new
shot subdirectory. -/
theorem thm_C9 :
    (∀ (fs : FileSystem) (rs : List ClipRecord) (fs' : FileSystem),
      generate_folders fs rs = .ok fs' → generate_folders fs' rs = .ok fs') ∧
    (∀ (fs : FileSystem) (rs : List ClipRecord) (fs' : FileSystem),
      generate_folders fs rs = .ok fs' →
        (∃ added, fs' = fs ++ added) ∧ ∀ p ∈ fs, p ∈ fs') ∧
    (∀ (fs : FileSystem) (c sh ep se : PyStr),
      se ≠ [] → ep ≠ [] → sh ≠ [] →
      pathExists fs [se] = true → pathExists fs [se, ep] = true →
      pathExists fs [se, ep, sh] = false →
      generate_folders fs [(c, sh, ep, se)] = .ok (fs ++ [[se, ep, sh]])) := by
  refine ⟨?_, ?_, ?_⟩
  · intro fs rs fs' h
    rw [generate_folders_eq] at h
    simp only [Except.ok.injEq] at h
    subst h
    rw [generate_folders_eq]
    rw [foldl_id_of_exists rs (rs.foldl gfStepPure fs)
      (fun r hr p hp => foldl_creates rs fs r hr p hp)]
  · intro fs rs fs' h
    rw [generate_folders_eq] at h
    simp only [Except.ok.injEq] at h
    subst h
    obtain ⟨t, ht⟩ := foldl_append rs fs
    refine ⟨⟨t, ht⟩, ?_⟩
    intro p hp
    rw [ht]
    exact List.mem_append.mpr (Or.inl hp)
  · intro fs c sh ep se hse hep hsh h1 h2 h3
    rw [generate_folders_eq]
    simp only [List.foldl_cons, List.foldl_nil]
    have hj1 : pathJoin ([] : DirPath) se = [se] := by simp [pathJoin, hse]
    have hj2 : pathJoin [se] ep = [se, ep] := by simp [pathJoin, hep]
    have hj3 : pathJoin [se, ep] sh = [se, ep, sh] := by simp [pathJoin, hsh]
    have hstep : gfStepPure fs (c, sh, ep, se) = fs ++ [[se, ep, sh]] := by
      show ensurePure (ensurePure (ensurePure fs (pathJoin [] se))
        (pathJoin (pathJoin [] se) ep))
        (pathJoin (pathJoin (pathJoin [] se) ep) sh) = fs ++ [[se, ep, sh]]
      rw [hj1]
      rw [ensurePure_of_exists fs [se] h1, hj2,
        ensurePure_of_exists fs [se, ep] h2, hj3]
      unfold ensurePure
      rw [if_neg (by simp [h3])]
      have hanc : dirAncestors [se, ep, sh] = [[se], [se, ep], [se, ep, sh]] := rfl
      rw [hanc]
      have hm1 : [se] ∈ fs := by
        rcases (pathExists_iff fs [se]).mp h1 with hh | hh
        · simp at hh
        · exact hh
      have hm2 : [se, ep] ∈ fs := by
        rcases (pathExists_iff fs [se, ep]).mp h2 with hh | hh
        · simp at hh
        · exact hh
      have hm3 : [se, ep, sh] ∉ fs := by
        intro hmem
        rw [(pathExists_iff fs [se, ep, sh]).mpr (Or.inr hmem)] at h3
        simp at h3
      show addDir (addDir (addDir fs [se]) [se, ep]) [se, ep, sh] = fs ++ [[se, ep, sh]]
      unfold addDir
      rw [if_pos hm1, if_pos hm2, if_neg hm3]
    rw [hstep]

/-- Witness for C9: idempotence and append-only at the record of the end-to-end example
 from an empty base, and the new-shot scenario of the spec
(`base/s01/e005` present, shot `e005s0099` new). -/
theorem thm_C9_witness :
    generate_folders
      [[pystr "s01"], [pystr "s01", pystr "e005"],
       [pystr "s01", pystr "e005", pystr "e005s0007"]] [goodMovRecord] =
      .ok [[pystr "s01"], [pystr "s01", pystr "e005"],
       [pystr "s01", pystr "e005", pystr "e005s0007"]] ∧
    generate_folders
      [[pystr "s01"], [pystr "s01", pystr "e005"]]
      [(pystr "clip", pystr "e005s0099", pystr "e005", pystr "s01")] =
      .ok ([[pystr "s01"], [pystr "s01", pystr "e005"]] ++
        [[pystr "s01", pystr "e005", pystr "e005s0099"]]) :=
  ⟨thm_C9.1 [] [goodMovRecord]
      [[pystr "s01"], [pystr "s01", pystr "e005"],
       [pystr "s01", pystr "e005", pystr "e005s0007"]] (by decide),
   thm_C9.2.2 [[pystr "s01"], [pystr "s01", pystr "e005"]]
      (pystr "clip") (pystr "e005s0099") (pystr "e005") (pystr "s01")
      (by decide) (by decide) (by decide) (by decide) (by decide) (by decide)⟩

/-- Claim C10: for a record whose shot field is empty, materializing creates
at most the season and episode directories and never a third-level one: the
shot path joins to the episode path itself, which exists after the second
step, so the third step is a no-op and no error is raised. -/
theorem thm_C10 (fs : FileSystem) (c ep se : PyStr) :
    ∃ fs', generate_folders fs [(c, [], ep, se)] = .ok fs' ∧
      pathExists fs' (pathJoin (pathJoin [] se) ep) = true ∧
      ∀ p ∈ fs', p ∈ fs ∨ p = pathJoin [] se ∨
        p = pathJoin (pathJoin [] se) ep := by
  have hshot : pathJoin (pathJoin (pathJoin [] se) ep) [] =
      pathJoin (pathJoin [] se) ep := by
    unfold pathJoin
    rw [if_pos rfl]
  have hstep : gfStepPure fs (c, [], ep, se) =
      ensurePure (ensurePure fs (pathJoin [] se)) (pathJoin (pathJoin [] se) ep) := by
    show ensurePure (ensurePure (ensurePure fs (pathJoin [] se))
      (pathJoin (pathJoin [] se) ep))
      (pathJoin (pathJoin (pathJoin [] se) ep) []) = _
    rw [hshot]
    exact ensurePure_of_exists _ _ (pathExists_ensurePure_self _ _)
  refine ⟨gfStepPure fs (c, [], ep, se), ?_, ?_, ?_⟩
  · rw [generate_folders_eq]
    simp only [List.foldl_cons, List.foldl_nil]
  · rw [hstep]
    exact pathExists_ensurePure_self _ _
  · intro p hp
    rw [hstep] at hp
    rcases mem_ensurePure_sub _ _ _ hp with hp2 | hp2
    · rcases mem_ensurePure_sub _ _ _ hp2 with hp3 | hp3
      · exact Or.inl hp3
      · exact Or.inr (Or.inl (mem_dirAncestors_join1 se p hp3))
    · rcases mem_dirAncestors_join2 se ep p hp2 with hp3 | hp3
      · exact Or.inr (Or.inl hp3)
      · exact Or.inr (Or.inr hp3)

/-- Witness for C10 at a concrete empty-shot record over an empty base. -/
theorem thm_C10_witness :
    ∃ fs', generate_folders [] [(pystr "s03e07_foo", [], pystr "e007", pystr "s03")] =
        .ok fs' ∧
      pathExists fs' (pathJoin (pathJoin [] (pystr "s03")) (pystr "e007")) = true ∧
      ∀ p ∈ fs', p ∈ ([] : FileSystem) ∨ p = pathJoin [] (pystr "s03") ∨
        p = pathJoin (pathJoin [] (pystr "s03")) (pystr "e007") :=
  thm_C10 [] (pystr "s03e07_foo") (pystr "e007") (pystr "s03")
